import Mathlib

/-!
Verification of the git-squash tool (src/git-squash.py).

The program is a thin orchestration layer over the external `git` command-line
tool.  We embed it shallowly:

* `GitState` is the semantic state of the one repository the program operates
  on (commit store, branch pointers, HEAD, working tree, index).  The meaning
  of each external `git` subcommand the program invokes is modelled from the
  external-collaborator contract in the specification (section 4.1): reference
  resolution, binary diff between two references, index-staging patch
  application, commit creation from the index, quiet checkout, hard reset.
* `Env` couples the semantic state with a fault schedule (the external tool
  may fail at any invocation, e.g. disk errors or conflicts beyond the
  deterministic model) and a trace of every command invoked, so that claims
  about ordering, aborting and "no mutating command ran" are statable.
* Every `GitEnv` method, `SquashOperation.__init__` / `perform()` / `revert()`
  and the `__main__` block are translated from src/git-squash.py.
  Python exceptions become `Except`; `CalledProcessError` is `ProcError`
  (return code plus captured stderr bytes); `ValueError` carries its message.
-/

/-- Concrete commit identifier (the content hash), abstracted as a natural. -/
abbrev Sha := Nat

/-- Abstract identifier for the content of a tree / working copy. -/
abbrev Snap := Nat

/-- A commit object: parent (none for a root commit), snapshot, message. -/
structure Commit where
  parent : Option Sha
  tree : Snap
  message : String
deriving DecidableEq

/-- Model of Python `CalledProcessError`: exit code and captured stderr. -/
structure ProcError where
  returncode : Nat
  stderr : String
deriving DecidableEq

/-- The checked-out position: a branch, or a detached commit. -/
inductive Head where
  | attached (branch : String)
  | detached (sha : Sha)
deriving DecidableEq

/-- Semantic state of the repository the tool operates on.
`insideResult` models the output of the repository-validity probe command
(`git rev-parse --is-inside-work-tree`) for the configured path: `some out`
when the command succeeds printing `out`, `none` when it exits non-zero. -/
structure GitState where
  commits : List (Sha × Commit)
  branches : List (String × Sha)
  head : Head
  worktree : Snap
  index : Snap
  nextSha : Sha
  insideResult : Option String
deriving DecidableEq

/-- A reference as passed to the external tool: a symbolic name (branch name
or HEAD) or a concrete identifier. -/
inductive GRef where
  | name (s : String)
  | sha (h : Sha)
deriving DecidableEq

/-- A binary patch, modelled by the snapshots it converts between. -/
structure Patch where
  base : Snap
  result : Snap
deriving DecidableEq

/-- One external command invocation, as recorded in the trace. -/
inductive GitCmd where
  | revParseInside
  | revParse (r : GRef)
  | revParseAbbrev (r : GRef)
  | diff (oldRef newRef : GRef)
  | apply (p : Patch)
  | commit (message : String)
  | checkout (r : GRef)
  | resetHard (r : GRef)
deriving DecidableEq

/-- The execution environment: semantic state, the schedule of injected
external-tool failures (one entry consumed per command; `some e` makes the
command fail with `e`, `none` lets the deterministic model decide), and the
trace of commands invoked so far. -/
structure Env where
  st : GitState
  faults : List (Option ProcError)
  trace : List GitCmd
deriving DecidableEq

/-- The two error categories of the program: `domain` is Python `ValueError`,
`process` is Python `CalledProcessError`. -/
inductive AppError where
  | domain (msg : String)
  | process (e : ProcError)
deriving DecidableEq

instance {ε α : Type} [DecidableEq ε] [DecidableEq α] : DecidableEq (Except ε α) := fun a b =>
  match a, b with
  | .ok x, .ok y => if h : x = y then .isTrue (by rw [h]) else .isFalse (by simp [h])
  | .error x, .error y => if h : x = y then .isTrue (by rw [h]) else .isFalse (by simp [h])
  | .ok _, .error _ => .isFalse (by simp)
  | .error _, .ok _ => .isFalse (by simp)

/-- First entry of the fault schedule (no entry means no injected fault). -/
def nextFault : List (Option ProcError) → Option ProcError
  | [] => none
  | f :: _ => f

/-- Fault schedule after one command has consumed its entry. -/
def restFaults : List (Option ProcError) → List (Option ProcError)
  | [] => []
  | _ :: r => r

/-- Association lookup for branch pointers. -/
def lookupBranch : List (String × Sha) → String → Option Sha
  | [], _ => none
  | (n, x) :: rest, b => if n = b then some x else lookupBranch rest b

/-- Association lookup in the commit store. -/
def lookupCommit : List (Sha × Commit) → Sha → Option Commit
  | [], _ => none
  | (h, c) :: rest, sha => if h = sha then some c else lookupCommit rest sha

/-- Move a branch pointer (appending the entry if the branch is new). -/
def setBranch : List (String × Sha) → String → Sha → List (String × Sha)
  | [], b, v => [(b, v)]
  | (n, x) :: rest, b, v =>
    if n = b then (n, v) :: rest else (n, x) :: setBranch rest b v

/-- Identifier the current HEAD points at. -/
def headSha (st : GitState) : Option Sha :=
  match st.head with
  | .attached b => lookupBranch st.branches b
  | .detached h => some h

/-- Resolution of a reference to a commit identifier, per the contract of
`git rev-parse <reference>`: a branch name resolves to its tip, `HEAD` to the
current position, a concrete identifier to itself when the object exists. -/
def resolveSha (st : GitState) : GRef → Option Sha
  | .name n =>
    if n = "HEAD" then headSha st else lookupBranch st.branches n
  | .sha h =>
    match lookupCommit st.commits h with
    | some _ => some h
    | none => none

/-- Resolution per `git rev-parse --abbrev-ref <reference>`: a branch name
prints itself, `HEAD` prints the attached branch name or the literal string
HEAD when detached, a concrete identifier prints itself. -/
def resolveAbbrev (st : GitState) : GRef → Option String
  | .name n =>
    if n = "HEAD" then
      match st.head with
      | .attached b => some b
      | .detached _ => some "HEAD"
    else if (lookupBranch st.branches n).isSome then some n else none
  | .sha h =>
    match lookupCommit st.commits h with
    | some _ => some (toString h)
    | none => none

/-- Printed form of a reference, as interpolated into the Python f-strings. -/
def refStr : GRef → String
  | .name s => s
  | .sha h => toString h

/-- Drops leading whitespace characters. -/
def dropLeadingWS : List Char → List Char
  | [] => []
  | c :: cs => if c.isWhitespace then dropLeadingWS cs else c :: cs

/-- Translation of GitEnv.bytes_to_str: utf-8 decode plus strip.  Captured
output bytes are modelled as strings, so only the strip remains; it is
implemented by dropping whitespace from both ends. -/
def bytes_to_str (output : String) : String :=
  ⟨List.reverse (dropLeadingWS (List.reverse (dropLeadingWS output.data)))⟩

/-- Runs one external command: consumes the next fault-schedule entry, records
the command in the trace, and on a benign schedule entry defers to the
deterministic semantics `sem` of the command. -/
def exec {α : Type} (sem : GitState → Except ProcError (α × GitState))
    (c : GitCmd) (env : Env) : Except ProcError α × Env :=
  match nextFault env.faults with
  | some e => (.error e, ⟨env.st, restFaults env.faults, env.trace ++ [c]⟩)
  | none =>
    match sem env.st with
    | .error e => (.error e, ⟨env.st, restFaults env.faults, env.trace ++ [c]⟩)
    | .ok (a, st) => (.ok a, ⟨st, restFaults env.faults, env.trace ++ [c]⟩)

/-- Semantics of `git rev-parse <r>` (spec 4.1, resolveIdentifier). -/
def getShaSem (r : GRef) (st : GitState) : Except ProcError (Sha × GitState) :=
  match resolveSha st r with
  | some h => .ok (h, st)
  | none => .error ⟨128, "fatal: ambiguous argument"⟩

/-- Semantics of `git rev-parse --abbrev-ref <r>` (spec 4.1,
resolveBranchName, before the HEAD-to-empty translation done in get_branch). -/
def getBranchSem (r : GRef) (st : GitState) : Except ProcError (String × GitState) :=
  match resolveAbbrev st r with
  | some s => .ok (s, st)
  | none => .error ⟨128, "fatal: ambiguous argument"⟩

/-- Semantics of `git diff --no-color --binary <old> <new>` (spec 4.1,
computeDiff): the patch converting the old snapshot into the new one. -/
def diffSem (oldRef newRef : GRef) (st : GitState) :
    Except ProcError (Patch × GitState) :=
  match resolveSha st oldRef with
  | none => .error ⟨128, "fatal: ambiguous argument"⟩
  | some h1 =>
    match lookupCommit st.commits h1 with
    | none => .error ⟨128, "fatal: bad object"⟩
    | some c1 =>
      match resolveSha st newRef with
      | none => .error ⟨128, "fatal: ambiguous argument"⟩
      | some h2 =>
        match lookupCommit st.commits h2 with
        | none => .error ⟨128, "fatal: bad object"⟩
        | some c2 => .ok (⟨c1.tree, c2.tree⟩, st)

/-- Semantics of `git apply --index` (spec 4.1, applyPatch): succeeds exactly
when the patch applies cleanly to the working tree, staging the result. -/
def applySem (p : Patch) (st : GitState) : Except ProcError (Unit × GitState) :=
  if st.worktree = p.base then
    .ok ((), { st with worktree := p.result, index := p.result })
  else
    .error ⟨1, "error: patch does not apply"⟩

/-- Semantics of `git commit -m <message>` (spec 4.1, commit): creates a
commit from the index on top of HEAD and advances HEAD (the attached branch,
or the detached position). -/
def commitSem (message : String) (st : GitState) :
    Except ProcError (Unit × GitState) :=
  .ok ((), { st with
    commits := (st.nextSha, ⟨headSha st, st.index, message⟩) :: st.commits,
    nextSha := st.nextSha + 1,
    head := match st.head with
      | .attached b => .attached b
      | .detached _ => .detached st.nextSha,
    branches := match st.head with
      | .attached b => setBranch st.branches b st.nextSha
      | .detached _ => st.branches })

/-- Semantics of `git checkout --quiet <r>` (spec 4.1, checkout): switches
the working tree and index to the reference, attaching HEAD for a branch name
and detaching it for a concrete identifier. -/
def checkoutSem (r : GRef) (st : GitState) : Except ProcError (Unit × GitState) :=
  match resolveSha st r with
  | none => .error ⟨1, "error: pathspec did not match"⟩
  | some h =>
    match lookupCommit st.commits h with
    | none => .error ⟨128, "fatal: bad object"⟩
    | some c =>
      .ok ((), { st with
        head := match r with
          | .name n => if n = "HEAD" then st.head else .attached n
          | .sha _ => .detached h,
        worktree := c.tree,
        index := c.tree })

/-- Semantics of `git reset --hard <r>` (spec 4.1, resetHard): forcibly moves
the current branch tip (or the detached HEAD) to the reference and discards
working-tree and index state. -/
def resetHardSem (r : GRef) (st : GitState) : Except ProcError (Unit × GitState) :=
  match resolveSha st r with
  | none => .error ⟨128, "fatal: ambiguous argument"⟩
  | some h =>
    match lookupCommit st.commits h with
    | none => .error ⟨128, "fatal: bad object"⟩
    | some c =>
      .ok ((), { st with
        branches := match st.head with
          | .attached b => setBranch st.branches b h
          | .detached _ => st.branches,
        head := match st.head with
          | .attached b => .attached b
          | .detached _ => .detached h,
        worktree := c.tree,
        index := c.tree })

/-- GitEnv.get_sha: resolve a reference to its identifier. -/
def GitEnv.get_sha (reference : GRef) (env : Env) : Except ProcError Sha × Env :=
  exec (getShaSem reference) (.revParse reference) env

/-- GitEnv.get_branch: resolve a reference to its branch name, translating the
literal HEAD answer (detached) into the empty string. -/
def GitEnv.get_branch (reference : GRef) (env : Env) : Except ProcError String × Env :=
  match exec (getBranchSem reference) (.revParseAbbrev reference) env with
  | (.error e, env) => (.error e, env)
  | (.ok result, env) => (.ok (if result = "HEAD" then "" else result), env)

/-- GitEnv.diff. -/
def GitEnv.diff (old_ref new_ref : GRef) (env : Env) : Except ProcError Patch × Env :=
  exec (diffSem old_ref new_ref) (.diff old_ref new_ref) env

/-- GitEnv.apply. -/
def GitEnv.apply (d : Patch) (env : Env) : Except ProcError Unit × Env :=
  exec (applySem d) (.apply d) env

/-- GitEnv.commit. -/
def GitEnv.commit (message : String) (env : Env) : Except ProcError Unit × Env :=
  exec (commitSem message) (.commit message) env

/-- GitEnv.checkout. -/
def GitEnv.checkout (reference : GRef) (env : Env) : Except ProcError Unit × Env :=
  exec (checkoutSem reference) (.checkout reference) env

/-- GitEnv.reset_hard. -/
def GitEnv.reset_hard (reference : GRef) (env : Env) : Except ProcError Unit × Env :=
  exec (resetHardSem reference) (.resetHard reference) env

/-- Semantics of `git rev-parse --is-inside-work-tree` for the configured
path, read off the state field capturing its outcome. -/
def insideSem (st : GitState) : Except ProcError (String × GitState) :=
  match st.insideResult with
  | some out => .ok (out, st)
  | none => .error ⟨128, "fatal: not a git repository"⟩

/-- GitEnv.is_repo_valid: runs the work-tree probe and compares its stripped
output with the string true; the bare except clause swallows every failure
into false. -/
def GitEnv.is_repo_valid (env : Env) : Bool × Env :=
  match exec insideSem GitCmd.revParseInside env with
  | (.ok out, env) => ((if "true" = bytes_to_str out then true else false), env)
  | (.error _, env) => (false, env)

/-- GitEnv.__init__: store the path and fail with ValueError when the
validity probe answers false. -/
def GitEnv.init (repo_path : String) (env : Env) : Except String Unit × Env :=
  match GitEnv.is_repo_valid env with
  | (true, env) => (.ok (), env)
  | (false, env) =>
    (.error (repo_path ++ " is not a valid git repository path"), env)

/-- The resolved, validated squash operation (fields of the Python object). -/
structure SquashOperation where
  target_ref : GRef
  target_sha : Sha
  source_sha : Sha
  source_branch : String
  message : String
deriving DecidableEq

/-- The ValueError message raised when a reference fails to resolve. -/
def bothValidMsg (target_ref source_ref : GRef) : String :=
  refStr target_ref ++ " and " ++ refStr source_ref ++
    " must be both valid git references"

/-- SquashOperation.__init__: resolve target and source identifiers and the
source branch name (any CalledProcessError becomes the joint ValueError),
reject a sourceless branch name, and compute the effective message.  The
Python expression custom_message or default takes the default both when no
custom message is given and when the given custom message is the empty
string (the empty string is falsy). -/
def SquashOperation.init (target_ref source_ref : GRef)
    (custom_message : Option String) (env : Env) :
    Except AppError SquashOperation × Env :=
  match GitEnv.get_sha target_ref env with
  | (.error _, env) => (.error (.domain (bothValidMsg target_ref source_ref)), env)
  | (.ok target_sha, env) =>
    match GitEnv.get_sha source_ref env with
    | (.error _, env) => (.error (.domain (bothValidMsg target_ref source_ref)), env)
    | (.ok source_sha, env) =>
      match GitEnv.get_branch source_ref env with
      | (.error _, env) => (.error (.domain (bothValidMsg target_ref source_ref)), env)
      | (.ok source_branch, env) =>
        if source_branch = "" then
          (.error (.domain (refStr source_ref ++ " must be a branch")), env)
        else
          (.ok { target_ref := target_ref, target_sha := target_sha,
                 source_sha := source_sha, source_branch := source_branch,
                 message :=
                   match custom_message with
                   | none => "Squashed " ++ source_branch
                   | some m =>
                     if m = "" then "Squashed " ++ source_branch else m },
           env)

/-- SquashOperation.perform: the six-step squash sequence, each step aborting
the remaining ones on failure. -/
def perform (op : SquashOperation) (env : Env) : Except ProcError Unit × Env :=
  match GitEnv.checkout (.sha op.target_sha) env with
  | (.error e, env) => (.error e, env)
  | (.ok _, env) =>
    match GitEnv.diff (.sha op.target_sha) (.name op.source_branch) env with
    | (.error e, env) => (.error e, env)
    | (.ok d, env) =>
      match GitEnv.apply d env with
      | (.error e, env) => (.error e, env)
      | (.ok _, env) =>
        match GitEnv.commit op.message env with
        | (.error e, env) => (.error e, env)
        | (.ok _, env) =>
          match GitEnv.get_sha (.name "HEAD") env with
          | (.error e, env) => (.error e, env)
          | (.ok new_commit_sha, env) =>
            match GitEnv.checkout (.name op.source_branch) env with
            | (.error e, env) => (.error e, env)
            | (.ok _, env) => GitEnv.reset_hard (.sha new_commit_sha) env

/-- SquashOperation.revert: check out the source branch and hard-reset it to
the pre-operation source identifier. -/
def revert (op : SquashOperation) (env : Env) : Except ProcError Unit × Env :=
  match GitEnv.checkout (.name op.source_branch) env with
  | (.error e, env) => (.error e, env)
  | (.ok _, env) => GitEnv.reset_hard (.sha op.source_sha) env

/-- The Logger: prints only when turned on (the inverse of the quiet flag). -/
structure Logger where
  turned_on : Bool

/-- Lines a single log call contributes to its stream. -/
def Logger.out (lg : Logger) (message : String) : List String :=
  if lg.turned_on then [message] else []

/-- The success message printed by the main block. -/
def successMessage (squash : SquashOperation) : String :=
  "Successfully squashed " ++ squash.source_branch ++ " onto " ++
    refStr squash.target_ref ++
    "\nTo revert changes call: git reset --hard " ++ toString squash.source_sha

/-- Outcome of one process run: exit code, the lines printed to standard
output and standard error, and the final environment. -/
structure RunResult where
  exitCode : Nat
  stdout : List String
  stderr : List String
  env : Env

/-- The __main__ block: construct the repository handle, construct the
operation, perform it, and report.  ValueError exits 1; a CalledProcessError
raised during perform triggers revert and exits with the captured return
code.  A CalledProcessError escaping SquashOperation construction would leave
the squash variable unbound in the revert handler, crashing the interpreter
(exit code 1); the same happens when revert itself raises inside the handler
(the traceback text is not modelled). -/
def mainRun (repo_path : String) (target source : GRef)
    (custom_message : Option String) (verbose : Bool) (env : Env) : RunResult :=
  let logger : Logger := ⟨verbose⟩
  match GitEnv.init repo_path env with
  | (.error msg, env) => ⟨1, [], logger.out msg, env⟩
  | (.ok _, env) =>
    match SquashOperation.init target source custom_message env with
    | (.error (.domain msg), env) => ⟨1, [], logger.out msg, env⟩
    | (.error (.process _), env) => ⟨1, [], [], env⟩
    | (.ok squash, env) =>
      match perform squash env with
      | (.ok _, env) => ⟨0, logger.out (successMessage squash), [], env⟩
      | (.error e, env) =>
        match revert squash env with
        | (.ok _, env) => ⟨e.returncode, [], logger.out (bytes_to_str e.stderr), env⟩
        | (.error _, env) => ⟨1, [], [], env⟩

/-- Whether a command mutates repository state (as opposed to a query). -/
def GitCmd.isMutating : GitCmd → Bool
  | .checkout _ => true
  | .apply _ => true
  | .commit _ => true
  | .resetHard _ => true
  | _ => false

/-- Commit identifiers in the store are below the allocation counter, so the
next allocated identifier is fresh. -/
def FreshShas (st : GitState) : Prop :=
  ∀ p ∈ st.commits, p.1 < st.nextSha

/-- A small concrete repository used to exercise the development: commit 0 is
the tip of main, commit 1 (a child of commit 0) is the tip of feature, and
feature is checked out. -/
def stW : GitState :=
  { commits := [(0, ⟨none, 10, "c0"⟩), (1, ⟨some 0, 11, "c1"⟩)],
    branches := [("main", 0), ("feature", 1)],
    head := .attached "feature",
    worktree := 11, index := 11, nextSha := 2,
    insideResult := some "true" }

/-- The concrete repository with an empty fault schedule. -/
def envW : Env := ⟨stW, [], []⟩

/-- The operation the constructor builds on the concrete repository. -/
def opW : SquashOperation := ⟨.name "main", 0, 1, "feature", "Squashed feature"⟩

/-- Environment after construction on the concrete repository. -/
def env1W : Env := (SquashOperation.init (.name "main") (.name "feature") none envW).2

/-- The concrete repository with a failure injected into the first squash
step (after the three construction queries) and nothing after it, so the
revert sequence runs undisturbed. -/
def envFail : Env := ⟨stW, [none, none, none, some ⟨3, "disk full"⟩], []⟩

/-- Environment after construction on `envFail`. -/
def env1Fail : Env :=
  (SquashOperation.init (.name "main") (.name "feature") none envFail).2

/-- Environment after the failing perform on `env1Fail`. -/
def env2Fail : Env := (perform opW env1Fail).2

/-- Environment after the successful revert on `env2Fail`. -/
def env3Fail : Env := (revert opW env2Fail).2

/-- The concrete repository set up so that the first perform step fails with
exit code 42 and the revert checkout inside the error handler also fails
(exit code 7): the schedule is consumed by the validity probe, the three
construction queries, the first perform step and the revert checkout. -/
def envDouble : Env :=
  ⟨stW, [none, none, none, none, some ⟨42, "boom"⟩, some ⟨7, "late boom"⟩], []⟩

/-- Environment after the validity probe and construction on `envDouble`. -/
def env1Double : Env :=
  (SquashOperation.init (.name "main") (.name "feature") none
    (GitEnv.init "/repo" envDouble).2).2

/-- The concrete repository with HEAD detached at commit 1. -/
def stDetached : GitState := { stW with head := .detached 1 }

/-- The detached repository with an empty fault schedule. -/
def envDetached : Env := ⟨stDetached, [], []⟩

/-- A repository state for which the inside-work-tree probe fails. -/
def stBad : GitState := { stW with insideResult := none }

/-- The invalid repository with an empty fault schedule. -/
def envBad : Env := ⟨stBad, [], []⟩

/-- Environment after the successful perform on `env1W`. -/
def env2W : Env := (perform opW env1W).2

/-- Environment after the validity probe on the concrete repository. -/
def envAW : Env := (GitEnv.init "/repo" envW).2

/-- Environment after construction on `envAW`. -/
def envBW : Env :=
  (SquashOperation.init (.name "main") (.name "feature") none envAW).2

/-- Environment after the successful perform on `envBW`. -/
def envCW : Env := (perform opW envBW).2

/-- Environment after the failed construction with an unresolvable target. -/
def env4W : Env :=
  (SquashOperation.init (.name "nope") (.name "feature") none envW).2

/-- Environment after the failed construction on the detached repository. -/
def env5W : Env :=
  (SquashOperation.init (.name "main") (.name "HEAD") none envDetached).2

/-- The operation built with a nonempty custom message. -/
def op6W : SquashOperation := ⟨.name "main", 0, 1, "feature", "custom"⟩

/-- Environment after construction with a custom message. -/
def env6W : Env :=
  (SquashOperation.init (.name "main") (.name "feature") (some "custom") envW).2

/-! ## Generic lemmas about command execution and the association lists -/

theorem exec_ok_inv {α : Type} {sem : GitState → Except ProcError (α × GitState)}
    {c : GitCmd} {env : Env} {a : α} {env' : Env}
    (h : exec sem c env = (.ok a, env')) :
    nextFault env.faults = none ∧ sem env.st = .ok (a, env'.st) ∧
    env'.faults = restFaults env.faults ∧ env'.trace = env.trace ++ [c] := by
  unfold exec at h
  cases hf : nextFault env.faults with
  | some e => rw [hf] at h; simp at h
  | none =>
    rw [hf] at h
    cases hs : sem env.st with
    | error e => rw [hs] at h; simp at h
    | ok p =>
      rw [hs] at h
      obtain ⟨a1, st1⟩ := p
      simp only [Prod.mk.injEq, Except.ok.injEq] at h
      obtain ⟨rfl, rfl⟩ := h
      exact ⟨rfl, rfl, rfl, rfl⟩

theorem exec_error_inv {α : Type} {sem : GitState → Except ProcError (α × GitState)}
    {c : GitCmd} {env : Env} {e : ProcError} {env' : Env}
    (h : exec sem c env = (.error e, env')) :
    env'.st = env.st ∧ env'.faults = restFaults env.faults ∧
    env'.trace = env.trace ++ [c] := by
  unfold exec at h
  cases hf : nextFault env.faults with
  | some e1 =>
    rw [hf] at h
    simp only [Prod.mk.injEq, Except.error.injEq] at h
    obtain ⟨rfl, rfl⟩ := h
    exact ⟨rfl, rfl, rfl⟩
  | none =>
    rw [hf] at h
    cases hs : sem env.st with
    | error e1 =>
      rw [hs] at h
      simp only [Prod.mk.injEq, Except.error.injEq] at h
      obtain ⟨rfl, rfl⟩ := h
      exact ⟨rfl, rfl, rfl⟩
    | ok p =>
      rw [hs] at h
      obtain ⟨a1, st1⟩ := p
      simp at h

theorem exec_trace {α : Type} {sem : GitState → Except ProcError (α × GitState)}
    {c : GitCmd} {env : Env} :
    ((exec sem c env).2).trace = env.trace ++ [c] := by
  unfold exec
  cases hf : nextFault env.faults with
  | some e => rfl
  | none =>
    cases hs : sem env.st with
    | error e => rfl
    | ok p => obtain ⟨a1, st1⟩ := p; rfl

theorem exec_pair_trace {α : Type} {sem : GitState → Except ProcError (α × GitState)}
    {c : GitCmd} {env : Env} {r : Except ProcError α} {env' : Env}
    (h : exec sem c env = (r, env')) : env'.trace = env.trace ++ [c] := by
  have h2 := congrArg Prod.snd h
  dsimp only at h2
  rw [← h2]
  exact exec_trace

theorem lookupBranch_setBranch_self (bs : List (String × Sha)) (b : String) (v : Sha) :
    lookupBranch (setBranch bs b v) b = some v := by
  induction bs with
  | nil => simp [setBranch, lookupBranch]
  | cons hd tl ih =>
    obtain ⟨n, x⟩ := hd
    by_cases hnb : n = b <;> simp [setBranch, lookupBranch, hnb, ih]

theorem lookupBranch_setBranch_ne (bs : List (String × Sha)) (b : String) (v : Sha)
    (b' : String) (h : b' ≠ b) :
    lookupBranch (setBranch bs b v) b' = lookupBranch bs b' := by
  induction bs with
  | nil =>
    have hne : b ≠ b' := fun hh => h hh.symm
    simp [setBranch, lookupBranch, hne]
  | cons hd tl ih =>
    obtain ⟨n, x⟩ := hd
    by_cases hnb : n = b
    · subst hnb
      have hne : n ≠ b' := fun hh => h hh.symm
      simp [setBranch, lookupBranch, hne]
    · simp [setBranch, lookupBranch, hnb, ih]

theorem lookupCommit_mem {cs : List (Sha × Commit)} {k : Sha} {c : Commit}
    (h : lookupCommit cs k = some c) : (k, c) ∈ cs := by
  induction cs with
  | nil => simp [lookupCommit] at h
  | cons hd tl ih =>
    obtain ⟨n, x⟩ := hd
    by_cases hnk : n = k
    · subst hnk
      simp [lookupCommit] at h
      simp [h]
    · simp [lookupCommit, hnk] at h
      simp [ih h]

theorem lookupCommit_none_of_bound {cs : List (Sha × Commit)} {n : Sha}
    (h : ∀ p ∈ cs, p.1 < n) : lookupCommit cs n = none := by
  induction cs with
  | nil => rfl
  | cons hd tl ih =>
    obtain ⟨k, c⟩ := hd
    have hk : k < n := h (k, c) (by simp)
    have : k ≠ n := Nat.ne_of_lt hk
    simp only [lookupCommit, if_neg this]
    exact ih fun p hp => h p (by simp [hp])

theorem lookupCommit_cons_ne {k : Sha} {c : Commit} {cs : List (Sha × Commit)}
    {h0 : Sha} (hne : k ≠ h0) :
    lookupCommit ((k, c) :: cs) h0 = lookupCommit cs h0 := by
  simp [lookupCommit, hne]

/-! ## Inversion lemmas for the adapter operations -/

/-- HEAD position after checking out a reference that resolved to `h0`. -/
def checkoutHead (r : GRef) (old : Head) (h0 : Sha) : Head :=
  match r with
  | .name n => if n = "HEAD" then old else .attached n
  | .sha _ => .detached h0

/-- The effective commit message computed by the constructor: the Python
truthiness test custom_message or default. -/
def effectiveMessage (custom_message : Option String) (branch : String) : String :=
  match custom_message with
  | none => "Squashed " ++ branch
  | some m => if m = "" then "Squashed " ++ branch else m

theorem get_sha_ok_inv {r : GRef} {env : Env} {a : Sha} {env' : Env}
    (h : GitEnv.get_sha r env = (.ok a, env')) :
    env'.st = env.st ∧ resolveSha env.st r = some a ∧
    nextFault env.faults = none ∧
    env'.faults = restFaults env.faults ∧
    env'.trace = env.trace ++ [.revParse r] := by
  have h' : exec (getShaSem r) (.revParse r) env = (.ok a, env') := h
  obtain ⟨hf, hs, hfa, htr⟩ := exec_ok_inv h'
  unfold getShaSem at hs
  cases hr : resolveSha env.st r with
  | none => rw [hr] at hs; simp at hs
  | some x =>
    rw [hr] at hs
    simp only [Except.ok.injEq, Prod.mk.injEq] at hs
    obtain ⟨rfl, hst⟩ := hs
    exact ⟨hst.symm, rfl, hf, hfa, htr⟩

theorem get_branch_ok_inv {r : GRef} {env : Env} {a : String} {env' : Env}
    (h : GitEnv.get_branch r env = (.ok a, env')) :
    env'.st = env.st ∧
    (∃ res, resolveAbbrev env.st r = some res ∧
      a = (if res = "HEAD" then "" else res)) ∧
    nextFault env.faults = none ∧
    env'.faults = restFaults env.faults ∧
    env'.trace = env.trace ++ [.revParseAbbrev r] := by
  unfold GitEnv.get_branch at h
  cases he : exec (getBranchSem r) (.revParseAbbrev r) env with
  | mk r1 env1 =>
    rw [he] at h
    cases r1 with
    | error e => simp at h
    | ok res =>
      simp only [Prod.mk.injEq, Except.ok.injEq] at h
      obtain ⟨rfl, rfl⟩ := h
      obtain ⟨hf, hs, hfa, htr⟩ := exec_ok_inv he
      unfold getBranchSem at hs
      cases hr : resolveAbbrev env.st r with
      | none => rw [hr] at hs; simp at hs
      | some x =>
        rw [hr] at hs
        simp only [Except.ok.injEq, Prod.mk.injEq] at hs
        obtain ⟨rfl, hst⟩ := hs
        exact ⟨hst.symm, ⟨x, rfl, rfl⟩, hf, hfa, htr⟩

theorem get_branch_error_inv {r : GRef} {env : Env} {e : ProcError} {env' : Env}
    (h : GitEnv.get_branch r env = (.error e, env')) :
    env'.st = env.st ∧ env'.faults = restFaults env.faults ∧
    env'.trace = env.trace ++ [.revParseAbbrev r] := by
  unfold GitEnv.get_branch at h
  cases he : exec (getBranchSem r) (.revParseAbbrev r) env with
  | mk r1 env1 =>
    rw [he] at h
    cases r1 with
    | error e1 =>
      simp only [Prod.mk.injEq, Except.error.injEq] at h
      obtain ⟨rfl, rfl⟩ := h
      exact exec_error_inv he
    | ok res => simp at h

theorem checkout_ok_inv {r : GRef} {env : Env} {u : Unit} {env' : Env}
    (h : GitEnv.checkout r env = (.ok u, env')) :
    nextFault env.faults = none ∧
    (∃ h0 c, resolveSha env.st r = some h0 ∧
      lookupCommit env.st.commits h0 = some c ∧
      env'.st = { env.st with
        head := checkoutHead r env.st.head h0,
        worktree := c.tree, index := c.tree }) ∧
    env'.faults = restFaults env.faults ∧
    env'.trace = env.trace ++ [.checkout r] := by
  have h' : exec (checkoutSem r) (.checkout r) env = (.ok u, env') := h
  obtain ⟨hf, hs, hfa, htr⟩ := exec_ok_inv h'
  unfold checkoutSem at hs
  cases hr : resolveSha env.st r with
  | none => rw [hr] at hs; simp at hs
  | some h0 =>
    rw [hr] at hs
    dsimp only at hs
    cases hc : lookupCommit env.st.commits h0 with
    | none => rw [hc] at hs; simp at hs
    | some c =>
      rw [hc] at hs
      dsimp only at hs
      simp only [Except.ok.injEq, Prod.mk.injEq] at hs
      exact ⟨hf, ⟨h0, c, rfl, hc, hs.2.symm⟩, hfa, htr⟩

theorem diff_ok_inv {r1 r2 : GRef} {env : Env} {d : Patch} {env' : Env}
    (h : GitEnv.diff r1 r2 env = (.ok d, env')) :
    env'.st = env.st ∧ nextFault env.faults = none ∧
    (∃ h1 c1 h2 c2, resolveSha env.st r1 = some h1 ∧
      lookupCommit env.st.commits h1 = some c1 ∧
      resolveSha env.st r2 = some h2 ∧
      lookupCommit env.st.commits h2 = some c2 ∧
      d = ⟨c1.tree, c2.tree⟩) ∧
    env'.faults = restFaults env.faults ∧
    env'.trace = env.trace ++ [.diff r1 r2] := by
  have h' : exec (diffSem r1 r2) (.diff r1 r2) env = (.ok d, env') := h
  obtain ⟨hf, hs, hfa, htr⟩ := exec_ok_inv h'
  unfold diffSem at hs
  cases ha : resolveSha env.st r1 with
  | none => rw [ha] at hs; simp at hs
  | some h1 =>
    rw [ha] at hs
    dsimp only at hs
    cases hb : lookupCommit env.st.commits h1 with
    | none => rw [hb] at hs; simp at hs
    | some c1 =>
      rw [hb] at hs
      dsimp only at hs
      cases hc : resolveSha env.st r2 with
      | none => rw [hc] at hs; simp at hs
      | some h2 =>
        rw [hc] at hs
        dsimp only at hs
        cases hd : lookupCommit env.st.commits h2 with
        | none => rw [hd] at hs; simp at hs
        | some c2 =>
          rw [hd] at hs
          dsimp only at hs
          simp only [Except.ok.injEq, Prod.mk.injEq] at hs
          obtain ⟨hd1, hst⟩ := hs
          exact ⟨hst.symm, hf, ⟨h1, c1, h2, c2, rfl, hb, rfl, hd, hd1.symm⟩, hfa, htr⟩

theorem apply_ok_inv {p : Patch} {env : Env} {u : Unit} {env' : Env}
    (h : GitEnv.apply p env = (.ok u, env')) :
    nextFault env.faults = none ∧
    env.st.worktree = p.base ∧
    env'.st = { env.st with worktree := p.result, index := p.result } ∧
    env'.faults = restFaults env.faults ∧
    env'.trace = env.trace ++ [.apply p] := by
  have h' : exec (applySem p) (.apply p) env = (.ok u, env') := h
  obtain ⟨hf, hs, hfa, htr⟩ := exec_ok_inv h'
  unfold applySem at hs
  by_cases hw : env.st.worktree = p.base
  · rw [if_pos hw] at hs
    simp only [Except.ok.injEq, Prod.mk.injEq] at hs
    exact ⟨hf, hw, hs.2.symm, hfa, htr⟩
  · rw [if_neg hw] at hs
    simp at hs

theorem commit_ok_inv {message : String} {env : Env} {u : Unit} {env' : Env}
    (h : GitEnv.commit message env = (.ok u, env')) :
    nextFault env.faults = none ∧
    env'.st = { env.st with
      commits := (env.st.nextSha, ⟨headSha env.st, env.st.index, message⟩) ::
        env.st.commits,
      nextSha := env.st.nextSha + 1,
      head := match env.st.head with
        | .attached b => .attached b
        | .detached _ => .detached env.st.nextSha,
      branches := match env.st.head with
        | .attached b => setBranch env.st.branches b env.st.nextSha
        | .detached _ => env.st.branches } ∧
    env'.faults = restFaults env.faults ∧
    env'.trace = env.trace ++ [.commit message] := by
  have h' : exec (commitSem message) (.commit message) env = (.ok u, env') := h
  obtain ⟨hf, hs, hfa, htr⟩ := exec_ok_inv h'
  unfold commitSem at hs
  simp only [Except.ok.injEq, Prod.mk.injEq] at hs
  exact ⟨hf, hs.2.symm, hfa, htr⟩

theorem reset_hard_ok_inv {r : GRef} {env : Env} {u : Unit} {env' : Env}
    (h : GitEnv.reset_hard r env = (.ok u, env')) :
    nextFault env.faults = none ∧
    (∃ h0 c, resolveSha env.st r = some h0 ∧
      lookupCommit env.st.commits h0 = some c ∧
      env'.st = { env.st with
        branches := match env.st.head with
          | .attached b => setBranch env.st.branches b h0
          | .detached _ => env.st.branches,
        head := match env.st.head with
          | .attached b => .attached b
          | .detached _ => .detached h0,
        worktree := c.tree, index := c.tree }) ∧
    env'.faults = restFaults env.faults ∧
    env'.trace = env.trace ++ [.resetHard r] := by
  have h' : exec (resetHardSem r) (.resetHard r) env = (.ok u, env') := h
  obtain ⟨hf, hs, hfa, htr⟩ := exec_ok_inv h'
  unfold resetHardSem at hs
  cases hr : resolveSha env.st r with
  | none => rw [hr] at hs; simp at hs
  | some h0 =>
    rw [hr] at hs
    dsimp only at hs
    cases hc : lookupCommit env.st.commits h0 with
    | none => rw [hc] at hs; simp at hs
    | some c =>
      rw [hc] at hs
      dsimp only at hs
      simp only [Except.ok.injEq, Prod.mk.injEq] at hs
      exact ⟨hf, ⟨h0, c, rfl, hc, hs.2.symm⟩, hfa, htr⟩

/-! ## Lemmas about SquashOperation construction -/

theorem get_sha_ok_run {r : GRef} {env : Env} {a : Sha}
    (hf : nextFault env.faults = none) (hr : resolveSha env.st r = some a) :
    GitEnv.get_sha r env =
      (.ok a, ⟨env.st, restFaults env.faults, env.trace ++ [.revParse r]⟩) := by
  unfold GitEnv.get_sha exec
  rw [hf]
  dsimp only
  unfold getShaSem
  rw [hr]

theorem get_branch_ok_run {r : GRef} {env : Env} {res : String}
    (hf : nextFault env.faults = none) (hr : resolveAbbrev env.st r = some res) :
    GitEnv.get_branch r env =
      (.ok (if res = "HEAD" then "" else res),
       ⟨env.st, restFaults env.faults, env.trace ++ [.revParseAbbrev r]⟩) := by
  unfold GitEnv.get_branch exec
  rw [hf]
  dsimp only
  unfold getBranchSem
  rw [hr]

theorem init_ok_inv {t s : GRef} {cm : Option String} {env : Env}
    {op : SquashOperation} {env' : Env}
    (h : SquashOperation.init t s cm env = (.ok op, env')) :
    env'.st = env.st ∧ op.target_ref = t ∧
    resolveSha env.st t = some op.target_sha ∧
    resolveSha env.st s = some op.source_sha ∧
    (∃ res, resolveAbbrev env.st s = some res ∧
      op.source_branch = (if res = "HEAD" then "" else res)) ∧
    op.source_branch ≠ "" ∧ op.source_branch ≠ "HEAD" ∧
    op.message = effectiveMessage cm op.source_branch ∧
    env'.trace = env.trace ++ [.revParse t, .revParse s, .revParseAbbrev s] := by
  unfold SquashOperation.init at h
  cases h1 : GitEnv.get_sha t env with
  | mk r1 env1 =>
    rw [h1] at h
    cases r1 with
    | error e => simp at h
    | ok tsha =>
      dsimp only at h
      cases h2 : GitEnv.get_sha s env1 with
      | mk r2 env2 =>
        rw [h2] at h
        cases r2 with
        | error e => simp at h
        | ok ssha =>
          dsimp only at h
          cases h3 : GitEnv.get_branch s env2 with
          | mk r3 env3 =>
            rw [h3] at h
            cases r3 with
            | error e => simp at h
            | ok sbranch =>
              dsimp only at h
              by_cases hb : sbranch = ""
              · rw [if_pos hb] at h; simp at h
              · rw [if_neg hb] at h
                simp only [Prod.mk.injEq, Except.ok.injEq] at h
                obtain ⟨hop, rfl⟩ := h
                obtain ⟨e1st, e1res, _, _, e1tr⟩ := get_sha_ok_inv h1
                obtain ⟨e2st, e2res, _, _, e2tr⟩ := get_sha_ok_inv h2
                obtain ⟨e3st, ⟨res, hres, hbr⟩, _, _, e3tr⟩ := get_branch_ok_inv h3
                subst hop
                rw [e1st] at e2res
                rw [e2st, e1st] at hres
                have hnh : sbranch ≠ "HEAD" := by
                  by_cases hrh : res = "HEAD"
                  · exact absurd (hbr.trans (if_pos hrh)) hb
                  · rw [hbr, if_neg hrh]; exact hrh
                refine ⟨e3st.trans (e2st.trans e1st), rfl, e1res, e2res,
                  ⟨res, hres, hbr⟩, hb, hnh, rfl, ?_⟩
                rw [e3tr, e2tr, e1tr]
                simp

theorem init_error_inv {t s : GRef} {cm : Option String} {env : Env}
    {err : AppError} {env' : Env}
    (h : SquashOperation.init t s cm env = (.error err, env')) :
    (∃ msg, err = .domain msg) ∧ env'.st = env.st ∧
    (∃ delta, env'.trace = env.trace ++ delta ∧
      ∀ c ∈ delta, c.isMutating = false) := by
  unfold SquashOperation.init at h
  cases h1 : GitEnv.get_sha t env with
  | mk r1 env1 =>
    rw [h1] at h
    cases r1 with
    | error e =>
      simp only [Prod.mk.injEq, Except.error.injEq] at h
      obtain ⟨rfl, rfl⟩ := h
      have h1' : exec (getShaSem t) (.revParse t) env = (.error e, env1) := h1
      obtain ⟨est, _, etr⟩ := exec_error_inv h1'
      exact ⟨⟨_, rfl⟩, est, ⟨[.revParse t], etr, by simp [GitCmd.isMutating]⟩⟩
    | ok tsha =>
      dsimp only at h
      obtain ⟨e1st, _, _, _, e1tr⟩ := get_sha_ok_inv h1
      cases h2 : GitEnv.get_sha s env1 with
      | mk r2 env2 =>
        rw [h2] at h
        cases r2 with
        | error e =>
          simp only [Prod.mk.injEq, Except.error.injEq] at h
          obtain ⟨rfl, rfl⟩ := h
          have h2' : exec (getShaSem s) (.revParse s) env1 = (.error e, env2) := h2
          obtain ⟨est, _, etr⟩ := exec_error_inv h2'
          refine ⟨⟨_, rfl⟩, est.trans e1st, ⟨[.revParse t, .revParse s], ?_, by simp [GitCmd.isMutating]⟩⟩
          rw [etr, e1tr]; simp
        | ok ssha =>
          dsimp only at h
          obtain ⟨e2st, _, _, _, e2tr⟩ := get_sha_ok_inv h2
          cases h3 : GitEnv.get_branch s env2 with
          | mk r3 env3 =>
            rw [h3] at h
            cases r3 with
            | error e =>
              simp only [Prod.mk.injEq, Except.error.injEq] at h
              obtain ⟨rfl, rfl⟩ := h
              obtain ⟨est, _, etr⟩ := get_branch_error_inv h3
              refine ⟨⟨_, rfl⟩, (est.trans e2st).trans e1st,
                ⟨[.revParse t, .revParse s, .revParseAbbrev s], ?_, by simp [GitCmd.isMutating]⟩⟩
              rw [etr, e2tr, e1tr]; simp
            | ok sbranch =>
              dsimp only at h
              obtain ⟨e3st, _, _, _, e3tr⟩ := get_branch_ok_inv h3
              by_cases hb : sbranch = ""
              · rw [if_pos hb] at h
                simp only [Prod.mk.injEq, Except.error.injEq] at h
                obtain ⟨rfl, rfl⟩ := h
                refine ⟨⟨_, rfl⟩, (e3st.trans e2st).trans e1st,
                  ⟨[.revParse t, .revParse s, .revParseAbbrev s], ?_, by simp [GitCmd.isMutating]⟩⟩
                rw [e3tr, e2tr, e1tr]; simp
              · rw [if_neg hb] at h
                simp at h

/-! ## Resolution helper lemmas -/

theorem resolveSha_sha_inv {st : GitState} {k x : Sha}
    (hr : resolveSha st (.sha k) = some x) : x = k := by
  unfold resolveSha at hr
  dsimp only at hr
  cases hl : lookupCommit st.commits k with
  | none => rw [hl] at hr; simp at hr
  | some c =>
    rw [hl] at hr
    simp only [Option.some.injEq] at hr
    exact hr.symm

theorem resolveSha_name {st : GitState} {nm : String} (hnm : nm ≠ "HEAD") :
    resolveSha st (.name nm) = lookupBranch st.branches nm := by
  unfold resolveSha
  dsimp only
  rw [if_neg hnm]

theorem resolveSha_HEAD {st : GitState} :
    resolveSha st (.name "HEAD") = headSha st := by
  unfold resolveSha
  dsimp only
  rw [if_pos rfl]

theorem init_name_branch_tip {n : String} {t : GRef} {cm : Option String}
    {env : Env} {op : SquashOperation} {env' : Env}
    (h : SquashOperation.init t (.name n) cm env = (.ok op, env')) :
    lookupBranch env.st.branches op.source_branch = some op.source_sha := by
  obtain ⟨_, _, _, hsrc, ⟨res, hres, hbr⟩, hne, _, _, _⟩ := init_ok_inv h
  by_cases hH : n = "HEAD"
  · subst hH
    rw [resolveSha_HEAD] at hsrc
    unfold resolveAbbrev at hres
    dsimp only at hres
    rw [if_pos rfl] at hres
    unfold headSha at hsrc
    cases hh : env.st.head with
    | attached b =>
      rw [hh] at hres hsrc
      dsimp only at hres hsrc
      simp only [Option.some.injEq] at hres
      subst hres
      by_cases hbH : b = "HEAD"
      · rw [hbr, if_pos hbH] at hne
        exact absurd rfl hne
      · rw [hbr, if_neg hbH]
        exact hsrc
    | detached x =>
      rw [hh] at hres
      dsimp only at hres
      simp only [Option.some.injEq] at hres
      subst hres
      rw [hbr] at hne
      simp at hne
  · unfold resolveAbbrev at hres
    dsimp only at hres
    rw [if_neg hH] at hres
    by_cases hl : (lookupBranch env.st.branches n).isSome
    · rw [if_pos hl] at hres
      simp only [Option.some.injEq] at hres
      subst hres
      rw [hbr, if_neg hH]
      rw [resolveSha_name hH] at hsrc
      exact hsrc
    · rw [if_neg hl] at hres
      simp at hres

/-! ## The net effect of a completed perform -/

theorem perform_ok_inv {op : SquashOperation} {env : Env} {u : Unit} {env' : Env}
    (hfresh : FreshShas env.st)
    (hb : lookupBranch env.st.branches op.source_branch = some op.source_sha)
    (hnh : op.source_branch ≠ "HEAD")
    (h : perform op env = (.ok u, env')) :
    ∃ src : Commit,
      lookupCommit env.st.commits op.source_sha = some src ∧
      (∃ ct, lookupCommit env.st.commits op.target_sha = some ct) ∧
      env'.st.commits =
        (env.st.nextSha, ⟨some op.target_sha, src.tree, op.message⟩) ::
          env.st.commits ∧
      env'.st.branches =
        setBranch env.st.branches op.source_branch env.st.nextSha ∧
      env'.st.head = Head.attached op.source_branch := by
  unfold perform at h
  cases hc1 : GitEnv.checkout (.sha op.target_sha) env with
  | mk r1 envA =>
    rw [hc1] at h
    cases r1 with
    | error e => simp at h
    | ok u1 =>
      dsimp only at h
      obtain ⟨_, ⟨t0, ct, hres1, hct, hstA⟩, _, _⟩ := checkout_ok_inv hc1
      have ht0 : t0 = op.target_sha := resolveSha_sha_inv hres1
      subst ht0
      dsimp only [checkoutHead] at hstA
      cases hc2 : GitEnv.diff (.sha op.target_sha) (.name op.source_branch) envA with
      | mk r2 envB =>
        rw [hc2] at h
        cases r2 with
        | error e => simp at h
        | ok d =>
          dsimp only at h
          obtain ⟨hstB, _, ⟨k1, c1, k2, src, hres2, hcl1, hres3, hcl2, hd⟩, _, _⟩ :=
            diff_ok_inv hc2
          have hk1 : k1 = op.target_sha := resolveSha_sha_inv hres2
          subst hk1
          rw [resolveSha_name hnh, hstA] at hres3
          dsimp only at hres3
          rw [hb] at hres3
          simp only [Option.some.injEq] at hres3
          subst hres3
          rw [hstA] at hcl1 hcl2
          dsimp only at hcl1 hcl2
          rw [hct] at hcl1
          simp only [Option.some.injEq] at hcl1
          subst hcl1
          subst hd
          refine ⟨src, hcl2, ⟨ct, hct⟩, ?_⟩
          cases hc3 : GitEnv.apply ⟨ct.tree, src.tree⟩ envB with
          | mk r3 envC =>
            rw [hc3] at h
            cases r3 with
            | error e => simp at h
            | ok u3 =>
              dsimp only at h
              obtain ⟨_, _, hstC, _, _⟩ := apply_ok_inv hc3
              rw [hstB, hstA] at hstC
              dsimp only at hstC
              cases hc4 : GitEnv.commit op.message envC with
              | mk r4 envD =>
                rw [hc4] at h
                cases r4 with
                | error e => simp at h
                | ok u4 =>
                  dsimp only at h
                  obtain ⟨_, hstD, _, _⟩ := commit_ok_inv hc4
                  rw [hstC] at hstD
                  dsimp only [headSha] at hstD
                  cases hc5 : GitEnv.get_sha (.name "HEAD") envD with
                  | mk r5 envE =>
                    rw [hc5] at h
                    cases r5 with
                    | error e => simp at h
                    | ok nsha =>
                      dsimp only at h
                      obtain ⟨hstE, hres5, _, _, _⟩ := get_sha_ok_inv hc5
                      rw [resolveSha_HEAD, hstD] at hres5
                      dsimp only [headSha] at hres5
                      simp only [Option.some.injEq] at hres5
                      subst hres5
                      cases hc6 : GitEnv.checkout (.name op.source_branch) envE with
                      | mk r6 envF =>
                        rw [hc6] at h
                        cases r6 with
                        | error e => simp at h
                        | ok u6 =>
                          dsimp only at h
                          obtain ⟨_, ⟨h6, c6, hres6, hcl6, hstF⟩, _, _⟩ :=
                            checkout_ok_inv hc6
                          rw [resolveSha_name hnh, hstE, hstD] at hres6
                          dsimp only at hres6
                          rw [hb] at hres6
                          simp only [Option.some.injEq] at hres6
                          subst hres6
                          have hmem := lookupCommit_mem hcl2
                          have hlt : op.source_sha < env.st.nextSha :=
                            hfresh _ hmem
                          have hne6 : env.st.nextSha ≠ op.source_sha :=
                            fun hh => absurd hh.symm (Nat.ne_of_lt hlt)
                          rw [hstE, hstD] at hcl6
                          dsimp only at hcl6
                          rw [lookupCommit_cons_ne hne6, hcl2] at hcl6
                          simp only [Option.some.injEq] at hcl6
                          subst hcl6
                          rw [hstE, hstD] at hstF
                          dsimp only [checkoutHead] at hstF
                          rw [if_neg hnh] at hstF
                          obtain ⟨_, ⟨h7, c7, hres7, hcl7, hstG⟩, _, _⟩ :=
                            reset_hard_ok_inv h
                          have hk7 : h7 = env.st.nextSha := resolveSha_sha_inv hres7
                          subst hk7
                          rw [hstF] at hstG
                          dsimp only at hstG
                          rw [hstG]
                          dsimp only
                          exact ⟨rfl, rfl, rfl⟩

theorem revert_ok_inv {op : SquashOperation} {env : Env} {u : Unit} {env' : Env}
    (hnh : op.source_branch ≠ "HEAD")
    (h : revert op env = (.ok u, env')) :
    lookupBranch env'.st.branches op.source_branch = some op.source_sha := by
  unfold revert at h
  cases hc1 : GitEnv.checkout (.name op.source_branch) env with
  | mk r1 envA =>
    rw [hc1] at h
    cases r1 with
    | error e => simp at h
    | ok u1 =>
      dsimp only at h
      obtain ⟨_, ⟨h0, c, hres1, hcl1, hstA⟩, _, _⟩ := checkout_ok_inv hc1
      obtain ⟨_, ⟨h2, c2, hres2, hcl2, hstG⟩, _, _⟩ := reset_hard_ok_inv h
      have hk2 : h2 = op.source_sha := resolveSha_sha_inv hres2
      subst hk2
      rw [hstA] at hstG
      dsimp only [checkoutHead] at hstG
      rw [if_neg hnh] at hstG
      dsimp only at hstG
      rw [hstG]
      dsimp only
      exact lookupBranch_setBranch_self _ _ _

/-- C1: for a squash operation constructed on a symbolic source reference,
when perform() completes, the source branch points at exactly one new commit
(freshly allocated, so absent from the original store) whose parent is the
resolved target identifier and whose snapshot is that of the source's
original tip; the commit store otherwise only grows by that one commit, the
commit the target identifier denotes is untouched, and every branch other
than the source branch (in particular the target, when it is a branch) keeps
its original tip. -/
theorem C1_squash_net_effect {n : String} {t : GRef} {cm : Option String}
    {env env1 env2 : Env} {op : SquashOperation} {u : Unit}
    (hfresh : FreshShas env.st)
    (hinit : SquashOperation.init t (GRef.name n) cm env = (.ok op, env1))
    (hperf : perform op env1 = (.ok u, env2)) :
    ∃ src : Commit,
      lookupCommit env.st.commits op.source_sha = some src ∧
      env2.st.commits =
        (env.st.nextSha, ⟨some op.target_sha, src.tree, op.message⟩) ::
          env.st.commits ∧
      lookupCommit env.st.commits env.st.nextSha = none ∧
      lookupBranch env2.st.branches op.source_branch = some env.st.nextSha ∧
      lookupCommit env2.st.commits op.target_sha =
        lookupCommit env.st.commits op.target_sha ∧
      ∀ b, b ≠ op.source_branch →
        lookupBranch env2.st.branches b = lookupBranch env.st.branches b := by
  obtain ⟨h1st, _, _, _, _, _, hnh, _, _⟩ := init_ok_inv hinit
  have hb1 : lookupBranch env1.st.branches op.source_branch = some op.source_sha := by
    rw [h1st]
    exact init_name_branch_tip hinit
  have hfresh1 : FreshShas env1.st := by
    rw [h1st]
    exact hfresh
  obtain ⟨src, hsrc, ⟨ct, hct⟩, hcom, hbr, hhd⟩ :=
    perform_ok_inv hfresh1 hb1 hnh hperf
  rw [h1st] at hsrc hcom hbr hct
  refine ⟨src, hsrc, hcom, lookupCommit_none_of_bound hfresh, ?_, ?_, ?_⟩
  · rw [hbr]
    exact lookupBranch_setBranch_self _ _ _
  · have hlt : op.target_sha < env.st.nextSha := hfresh _ (lookupCommit_mem hct)
    have hne : env.st.nextSha ≠ op.target_sha :=
      fun hh => absurd hh.symm (Nat.ne_of_lt hlt)
    rw [hcom, lookupCommit_cons_ne hne]
  · intro b hbne
    rw [hbr]
    exact lookupBranch_setBranch_ne _ _ _ _ hbne

/-- C3: for an operation constructed on a symbolic source reference, if
perform() fails at any step and revert() then completes, the source branch
resolves to the operation's stored source identifier, which is exactly what
the source branch resolved to before perform() was invoked. -/
theorem C3_revert_restores {n : String} {t : GRef} {cm : Option String}
    {env env1 env2 env3 : Env} {op : SquashOperation} {e : ProcError} {u : Unit}
    (hinit : SquashOperation.init t (GRef.name n) cm env = (.ok op, env1))
    (hperf : perform op env1 = (.error e, env2))
    (hrev : revert op env2 = (.ok u, env3)) :
    lookupBranch env3.st.branches op.source_branch = some op.source_sha ∧
    lookupBranch env1.st.branches op.source_branch = some op.source_sha := by
  obtain ⟨h1st, _, _, _, _, _, hnh, _, _⟩ := init_ok_inv hinit
  refine ⟨revert_ok_inv hnh hrev, ?_⟩
  rw [h1st]
  exact init_name_branch_tip hinit

/-- C4: when either reference fails to resolve, construction fails with the
joint ValueError naming both references, and the commands issued are queries
only, never a mutating checkout, apply, commit or reset. -/
theorem C4_invalid_references {t s : GRef} {cm : Option String} {env : Env}
    {r : Except AppError SquashOperation} {env' : Env}
    (hbad : resolveSha env.st t = none ∨ resolveSha env.st s = none)
    (h : SquashOperation.init t s cm env = (r, env')) :
    r = .error (.domain (bothValidMsg t s)) ∧
    ∃ delta, env'.trace = env.trace ++ delta ∧
      ∀ c ∈ delta, c.isMutating = false := by
  unfold SquashOperation.init at h
  cases h1 : GitEnv.get_sha t env with
  | mk r1 env1 =>
    rw [h1] at h
    cases r1 with
    | error e =>
      dsimp only at h
      simp only [Prod.mk.injEq] at h
      obtain ⟨rfl, rfl⟩ := h
      have h1' : exec (getShaSem t) (.revParse t) env = (.error e, env1) := h1
      obtain ⟨_, _, etr⟩ := exec_error_inv h1'
      exact ⟨rfl, ⟨[.revParse t], etr, by simp [GitCmd.isMutating]⟩⟩
    | ok tsha =>
      dsimp only at h
      obtain ⟨e1st, e1res, _, _, e1tr⟩ := get_sha_ok_inv h1
      have hsn : resolveSha env.st s = none := by
        cases hbad with
        | inl hl => rw [hl] at e1res; cases e1res
        | inr hr => exact hr
      cases h2 : GitEnv.get_sha s env1 with
      | mk r2 env2 =>
        rw [h2] at h
        cases r2 with
        | error e =>
          dsimp only at h
          simp only [Prod.mk.injEq] at h
          obtain ⟨rfl, rfl⟩ := h
          have h2' : exec (getShaSem s) (.revParse s) env1 = (.error e, env2) := h2
          obtain ⟨_, _, etr⟩ := exec_error_inv h2'
          refine ⟨rfl, ⟨[.revParse t, .revParse s], ?_, by simp [GitCmd.isMutating]⟩⟩
          rw [etr, e1tr]
          simp
        | ok ssha =>
          obtain ⟨e2st, e2res, _, _, _⟩ := get_sha_ok_inv h2
          rw [e1st, hsn] at e2res
          cases e2res

/-- C5: a source reference that resolves to a commit while branch resolution
answers the literal HEAD (a detached reference, which get_branch turns into
the empty string) makes construction fail with the must-be-a-branch
ValueError, and only query commands are issued, so perform() is never
reached. -/
theorem C5_detached_source {t s : GRef} {cm : Option String} {env : Env}
    {r : Except AppError SquashOperation} {env' : Env} {tsha ssha : Sha}
    (hfaults : env.faults = [])
    (ht : resolveSha env.st t = some tsha)
    (hs : resolveSha env.st s = some ssha)
    (hd : resolveAbbrev env.st s = some "HEAD")
    (h : SquashOperation.init t s cm env = (r, env')) :
    r = .error (.domain (refStr s ++ " must be a branch")) ∧
    ∃ delta, env'.trace = env.trace ++ delta ∧
      ∀ c ∈ delta, c.isMutating = false := by
  have hf0 : nextFault env.faults = none := by rw [hfaults]; rfl
  unfold SquashOperation.init at h
  cases h1 : GitEnv.get_sha t env with
  | mk r1 env1 =>
    rw [h1] at h
    cases r1 with
    | error e =>
      rw [get_sha_ok_run hf0 ht] at h1
      simp at h1
    | ok tsha1 =>
      dsimp only at h
      obtain ⟨e1st, _, _, e1f, e1tr⟩ := get_sha_ok_inv h1
      have hf1 : nextFault env1.faults = none := by
        rw [e1f, hfaults]; rfl
      have hs1 : resolveSha env1.st s = some ssha := by rw [e1st]; exact hs
      cases h2 : GitEnv.get_sha s env1 with
      | mk r2 env2 =>
        rw [h2] at h
        cases r2 with
        | error e =>
          rw [get_sha_ok_run hf1 hs1] at h2
          simp at h2
        | ok ssha1 =>
          dsimp only at h
          obtain ⟨e2st, _, _, e2f, e2tr⟩ := get_sha_ok_inv h2
          have hf2 : nextFault env2.faults = none := by
            rw [e2f, e1f, hfaults]; rfl
          have hd2 : resolveAbbrev env2.st s = some "HEAD" := by
            rw [e2st, e1st]; exact hd
          cases h3 : GitEnv.get_branch s env2 with
          | mk r3 env3 =>
            rw [h3] at h
            cases r3 with
            | error e =>
              rw [get_branch_ok_run hf2 hd2] at h3
              simp at h3
            | ok sbranch =>
              dsimp only at h
              obtain ⟨_, ⟨res, hres, hbr⟩, _, _, e3tr⟩ := get_branch_ok_inv h3
              rw [e2st, e1st, hd] at hres
              simp only [Option.some.injEq] at hres
              subst hres
              rw [if_pos rfl] at hbr
              rw [if_pos hbr] at h
              simp only [Prod.mk.injEq] at h
              obtain ⟨rfl, rfl⟩ := h
              refine ⟨rfl, ⟨[.revParse t, .revParse s, .revParseAbbrev s], ?_,
                by simp [GitCmd.isMutating]⟩⟩
              rw [e3tr, e2tr, e1tr]
              simp

/-- C6 amended: the effective message is a nonempty custom message verbatim;
with no custom message, or with an empty custom message (which the Python
truthiness test treats like an absent one), it is the generated default
Squashed-branch text. -/
theorem C6_effective_message {t s : GRef} {cm : Option String} {env : Env}
    {op : SquashOperation} {env' : Env}
    (h : SquashOperation.init t s cm env = (.ok op, env')) :
    (∀ m, cm = some m → m ≠ "" → op.message = m) ∧
    ((cm = none ∨ cm = some "") →
      op.message = "Squashed " ++ op.source_branch) := by
  obtain ⟨_, _, _, _, _, _, _, hmsg, _⟩ := init_ok_inv h
  constructor
  · intro m hm hne
    rw [hmsg, hm]
    simp [effectiveMessage, hne]
  · rintro (hm | hm) <;> rw [hmsg, hm] <;> simp [effectiveMessage]

/-- C10: the constructor turns every process-execution failure of its three
resolution queries into a domain ValueError, so a process error can only
escape from perform(), after construction succeeded; the revert handler in
the main block therefore never runs with the operation variable unbound. -/
theorem C10_constructor_domain_errors {t s : GRef} {cm : Option String}
    {env : Env} {err : AppError} {env' : Env}
    (h : SquashOperation.init t s cm env = (.error err, env')) :
    ∃ msg, err = AppError.domain msg :=
  (init_error_inv h).1

/-! ## The main block -/

theorem is_repo_valid_snd_trace (env : Env) :
    (GitEnv.is_repo_valid env).2.trace = env.trace ++ [GitCmd.revParseInside] := by
  unfold GitEnv.is_repo_valid
  cases he : exec insideSem GitCmd.revParseInside env with
  | mk rr env0 =>
    have ht := exec_pair_trace he
    cases rr with
    | ok out => exact ht
    | error e => exact ht

/-- C9: the repository-validity check is a total boolean: an injected
process failure or a failing probe both collapse to false (nothing is
raised), a succeeding probe answers whether its stripped output is the
string true; and when the check is false the run exits 1 with the
path-naming validation message after having issued only the probe command. -/
theorem C9_repo_validation (p : String) (t s : GRef) (cm : Option String)
    (v : Bool) :
    (∀ env : Env, nextFault env.faults ≠ none →
      (GitEnv.is_repo_valid env).1 = false) ∧
    (∀ env : Env, nextFault env.faults = none →
      env.st.insideResult = none → (GitEnv.is_repo_valid env).1 = false) ∧
    (∀ (env : Env) (out : String), nextFault env.faults = none →
      env.st.insideResult = some out →
      (GitEnv.is_repo_valid env).1 =
        (if "true" = bytes_to_str out then true else false)) ∧
    (∀ env : Env, (GitEnv.is_repo_valid env).1 = false →
      (mainRun p t s cm v env).exitCode = 1 ∧
      (mainRun p t s cm v env).stderr =
        (if v then [p ++ " is not a valid git repository path"] else []) ∧
      (mainRun p t s cm v env).env.trace =
        env.trace ++ [GitCmd.revParseInside]) := by
  refine ⟨?_, ?_, ?_, ?_⟩
  · intro env hne
    unfold GitEnv.is_repo_valid exec
    cases hf : nextFault env.faults with
    | none => exact absurd hf hne
    | some e => rfl
  · intro env hf hin
    unfold GitEnv.is_repo_valid exec
    rw [hf]
    dsimp only
    unfold insideSem
    rw [hin]
  · intro env out hf hin
    unfold GitEnv.is_repo_valid exec
    rw [hf]
    dsimp only
    unfold insideSem
    rw [hin]
  · intro env hfalse
    cases hv : GitEnv.is_repo_valid env with
    | mk b env0 =>
      rw [hv] at hfalse
      dsimp only at hfalse
      subst hfalse
      have hroot : GitEnv.init p env =
          (.error (p ++ " is not a valid git repository path"), env0) := by
        unfold GitEnv.init
        rw [hv]
      have htr : env0.trace = env.trace ++ [GitCmd.revParseInside] := by
        have := is_repo_valid_snd_trace env
        rw [hv] at this
        exact this
      unfold mainRun
      rw [hroot]
      exact ⟨rfl, rfl, htr⟩

/-- C7 amended: the exit code is 1 when repository validation fails or
construction raises a domain error, 0 on a completed squash, the failing
command's own return code when a squash step fails and the revert completes,
and 1 (the unhandled-exception exit of the interpreter) when the revert
inside the error handler itself fails. -/
theorem C7_exit_codes (p : String) (t s : GRef) (cm : Option String)
    (v : Bool) (env : Env) :
    (∀ msg envA, GitEnv.init p env = (.error msg, envA) →
      (mainRun p t s cm v env).exitCode = 1) ∧
    (∀ envA msg envB, GitEnv.init p env = (.ok (), envA) →
      SquashOperation.init t s cm envA = (.error (.domain msg), envB) →
      (mainRun p t s cm v env).exitCode = 1) ∧
    (∀ envA op envB envC, GitEnv.init p env = (.ok (), envA) →
      SquashOperation.init t s cm envA = (.ok op, envB) →
      perform op envB = (.ok (), envC) →
      (mainRun p t s cm v env).exitCode = 0) ∧
    (∀ envA op envB e envC envD, GitEnv.init p env = (.ok (), envA) →
      SquashOperation.init t s cm envA = (.ok op, envB) →
      perform op envB = (.error e, envC) →
      revert op envC = (.ok (), envD) →
      (mainRun p t s cm v env).exitCode = e.returncode) ∧
    (∀ envA op envB e envC e2 envD, GitEnv.init p env = (.ok (), envA) →
      SquashOperation.init t s cm envA = (.ok op, envB) →
      perform op envB = (.error e, envC) →
      revert op envC = (.error e2, envD) →
      (mainRun p t s cm v env).exitCode = 1) := by
  refine ⟨?_, ?_, ?_, ?_, ?_⟩
  · intro msg envA hga
    unfold mainRun
    rw [hga]
  · intro envA msg envB hga hsq
    unfold mainRun
    rw [hga]
    dsimp only
    rw [hsq]
  · intro envA op envB envC hga hsq hpf
    unfold mainRun
    rw [hga]
    dsimp only
    rw [hsq]
    dsimp only
    rw [hpf]
  · intro envA op envB e envC envD hga hsq hpf hrv
    unfold mainRun
    rw [hga]
    dsimp only
    rw [hsq]
    dsimp only
    rw [hpf]
    dsimp only
    rw [hrv]
  · intro envA op envB e envC e2 envD hga hsq hpf hrv
    unfold mainRun
    rw [hga]
    dsimp only
    rw [hsq]
    dsimp only
    rw [hpf]
    dsimp only
    rw [hrv]

/-- C8: on a completed squash with logging enabled, standard output carries
exactly one message, naming the squashed source branch and the target
reference as given, and ending in the revert hint, a hard reset to the
source identifier stored at construction, which is the tip the source branch
had before the operation; the run exits 0. -/
theorem C8_success_message {p : String} {t : GRef} {n : String}
    {cm : Option String} {env envA envB envC : Env} {op : SquashOperation}
    (hga : GitEnv.init p env = (.ok (), envA))
    (hinit : SquashOperation.init t (GRef.name n) cm envA = (.ok op, envB))
    (hperf : perform op envB = (.ok (), envC)) :
    (mainRun p t (GRef.name n) cm true env).stdout =
      ["Successfully squashed " ++ op.source_branch ++ " onto " ++
        refStr op.target_ref ++
        "\nTo revert changes call: git reset --hard " ++
        toString op.source_sha] ∧
    op.target_ref = t ∧
    lookupBranch envA.st.branches op.source_branch = some op.source_sha ∧
    (mainRun p t (GRef.name n) cm true env).exitCode = 0 := by
  obtain ⟨_, htr, _, _, _, _, _, _, _⟩ := init_ok_inv hinit
  have hmain : mainRun p t (GRef.name n) cm true env =
      ⟨0, Logger.out ⟨true⟩ (successMessage op), [], envC⟩ := by
    unfold mainRun
    rw [hga]
    dsimp only
    rw [hinit]
    dsimp only
    rw [hperf]
  refine ⟨?_, htr, init_name_branch_tip hinit, ?_⟩
  · rw [hmain]
    rfl
  · rw [hmain]

/-! ## Counterexamples and witnesses -/

/-- C6 counterexample: with the custom message given as the empty string,
construction succeeds but the effective message is the generated default,
not the given custom message verbatim. -/
theorem C6_counterexample :
    (SquashOperation.init (.name "main") (.name "feature") (some "") envW).1.map
      (fun op => op.message) = .ok "Squashed feature" ∧
    "Squashed feature" ≠ "" :=
  ⟨rfl, by decide⟩

/-- C7 counterexample: on this repository the squash sequence fails with the
external return code 42, but because the revert checkout inside the error
handler also fails, the process exits 1 rather than 42. -/
theorem C7_counterexample :
    (mainRun "/repo" (.name "main") (.name "feature") none true
      envDouble).exitCode = 1 ∧
    SquashOperation.init (.name "main") (.name "feature") none
      (GitEnv.init "/repo" envDouble).2 = (.ok opW, env1Double) ∧
    (perform opW env1Double).1 = .error ⟨42, "boom"⟩ ∧
    (42 : Nat) ≠ 1 :=
  ⟨rfl, rfl, rfl, by decide⟩

/-- Witness for C1 on the concrete repository. -/
theorem C1_witness :
    ∃ src : Commit,
      lookupCommit envW.st.commits opW.source_sha = some src ∧
      env2W.st.commits =
        (envW.st.nextSha, ⟨some opW.target_sha, src.tree, opW.message⟩) ::
          envW.st.commits ∧
      lookupCommit envW.st.commits envW.st.nextSha = none ∧
      lookupBranch env2W.st.branches opW.source_branch =
        some envW.st.nextSha ∧
      lookupCommit env2W.st.commits opW.target_sha =
        lookupCommit envW.st.commits opW.target_sha ∧
      ∀ b, b ≠ opW.source_branch →
        lookupBranch env2W.st.branches b = lookupBranch envW.st.branches b :=
  @C1_squash_net_effect "feature" (.name "main") none envW env1W env2W opW ()
    (by unfold FreshShas; decide) rfl rfl

/-- Witness for C3: an injected failure at the first squash step, followed by
a clean revert. -/
theorem C3_witness :
    lookupBranch env3Fail.st.branches opW.source_branch =
      some opW.source_sha ∧
    lookupBranch env1Fail.st.branches opW.source_branch =
      some opW.source_sha :=
  @C3_revert_restores "feature" (.name "main") none envFail env1Fail env2Fail
    env3Fail opW ⟨3, "disk full"⟩ () rfl rfl rfl

/-- Witness for C4: an unresolvable target reference. -/
theorem C4_witness :
    (Except.error (.domain (bothValidMsg (.name "nope") (.name "feature"))) :
      Except AppError SquashOperation) =
      .error (.domain (bothValidMsg (.name "nope") (.name "feature"))) ∧
    ∃ delta, env4W.trace = envW.trace ++ delta ∧
      ∀ c ∈ delta, c.isMutating = false :=
  @C4_invalid_references (.name "nope") (.name "feature") none envW
    (.error (.domain (bothValidMsg (.name "nope") (.name "feature")))) env4W
    (Or.inl rfl) rfl

/-- Witness for C5: a detached HEAD given as the source reference. -/
theorem C5_witness :
    (Except.error (.domain (refStr (GRef.name "HEAD") ++ " must be a branch")) :
      Except AppError SquashOperation) =
      .error (.domain (refStr (GRef.name "HEAD") ++ " must be a branch")) ∧
    ∃ delta, env5W.trace = envDetached.trace ++ delta ∧
      ∀ c ∈ delta, c.isMutating = false :=
  @C5_detached_source (.name "main") (.name "HEAD") none envDetached
    (.error (.domain (refStr (GRef.name "HEAD") ++ " must be a branch")))
    env5W 0 1 rfl rfl rfl rfl rfl

/-- Witness for C6: a nonempty custom message. -/
theorem C6_witness :
    (∀ m, (some "custom" : Option String) = some m → m ≠ "" →
      op6W.message = m) ∧
    (((some "custom" : Option String) = none ∨
        (some "custom" : Option String) = some "") →
      op6W.message = "Squashed " ++ op6W.source_branch) :=
  @C6_effective_message (.name "main") (.name "feature") (some "custom") envW
    op6W env6W rfl

/-- Witness for C7: a completed run exits 0. -/
theorem C7_witness :
    (mainRun "/repo" (.name "main") (.name "feature") none true
      envW).exitCode = 0 :=
  (C7_exit_codes "/repo" (.name "main") (.name "feature") none true envW).2.2.1
    envAW opW envBW envCW rfl rfl rfl

/-- Witness for C8 on the concrete repository. -/
theorem C8_witness :
    (mainRun "/repo" (.name "main") (.name "feature") none true envW).stdout =
      ["Successfully squashed " ++ opW.source_branch ++ " onto " ++
        refStr opW.target_ref ++
        "\nTo revert changes call: git reset --hard " ++
        toString opW.source_sha] ∧
    opW.target_ref = GRef.name "main" ∧
    lookupBranch envAW.st.branches opW.source_branch = some opW.source_sha ∧
    (mainRun "/repo" (.name "main") (.name "feature") none true
      envW).exitCode = 0 :=
  @C8_success_message "/repo" (.name "main") "feature" none envW envAW envBW
    envCW opW rfl rfl rfl

/-- Witness for C9: a path outside a work tree is rejected with exit 1. -/
theorem C9_witness :
    (GitEnv.is_repo_valid envBad).1 = false ∧
    (mainRun "/bad" (.name "main") (.name "HEAD") none true
      envBad).exitCode = 1 := by
  have h9 := C9_repo_validation "/bad" (.name "main") (.name "HEAD") none true
  have hfalse := h9.2.1 envBad rfl rfl
  exact ⟨hfalse, (h9.2.2.2 envBad hfalse).1⟩

/-- Witness for C10: a failed construction carries a domain error. -/
theorem C10_witness :
    ∃ msg, AppError.domain (bothValidMsg (.name "nope") (.name "feature")) =
      AppError.domain msg :=
  @C10_constructor_domain_errors (.name "nope") (.name "feature") none envW
    (.domain (bothValidMsg (.name "nope") (.name "feature"))) env4W rfl
